import Mathlib

/-!
Verification of the project-sandbox / file-mutation core of a FastAPI
"react app builder" service (`main.py`, `project_setup.py`).

Python strings are modelled as `List Char` (`PyStr`); the relevant parts of
`os.path` (`join`, `normpath`, `abspath`, `dirname`, `isabs`) are translated
from CPython's `posixpath` implementation.  The filesystem is modelled as a
finite map from canonical absolute paths to directory/file entries, with every
operation canonicalising its path argument the way the OS does.
-/

set_option maxHeartbeats 1000000

abbrev PyStr := List Char

/-- Shorthand turning a Lean string literal into the `List Char` model of a
Python string. -/
def pstr (s : String) : PyStr := s.data

/-- `posixpath.isabs`: a path is absolute iff it starts with a slash. -/
def pyIsAbs (p : PyStr) : Bool :=
  match p with
  | [] => false
  | c :: _ => c = '/'

/-- `posixpath.join` for two components: if `b` starts with the separator the
result is `b`; otherwise `b` is appended to `a`, inserting a separator unless
`a` is empty or already ends with one. -/
def pyJoin (a b : PyStr) : PyStr :=
  if pyIsAbs b then b
  else if a = [] ∨ a.getLast? = some '/' then a ++ b
  else a ++ '/' :: b

/-- One step of `posixpath.normpath`'s component loop: skip empty and `.`
components; append a component unless it is `..` and can cancel a previous
real component (on an absolute path a leading `..` is dropped). -/
def normStep (absFlag : Bool) (newComps : List PyStr) (comp : PyStr) : List PyStr :=
  if comp = [] ∨ comp = pstr "." then newComps
  else if comp ≠ pstr ".." ∨ (absFlag = false ∧ newComps = []) ∨ newComps.getLast? = some (pstr "..") then
    newComps ++ [comp]
  else newComps.dropLast

/-- `posixpath.normpath`, translated from CPython: empty path is `.`, one or
three-or-more leading slashes collapse to one, exactly two are preserved,
components are normalised by `normStep` and rejoined. -/
def pyNormpath (p : PyStr) : PyStr :=
  if p = [] then pstr "."
  else
    let initSlashes : Nat :=
      if pyIsAbs p then
        if (pstr "//").isPrefixOf p ∧ ¬ (pstr "///").isPrefixOf p then 2 else 1
      else 0
    let comps := p.splitOn '/'
    let newComps := comps.foldl (normStep (initSlashes ≠ 0)) []
    let out := List.replicate initSlashes '/' ++ List.intercalate (pstr "/") newComps
    if out = [] then pstr "." else out

/-- `posixpath.abspath` relative to an explicit process working directory:
join onto the cwd (a no-op for absolute paths) and normalise. -/
def pyAbspath (cwd p : PyStr) : PyStr :=
  pyNormpath (pyJoin cwd p)

/-- Index of the last occurrence of a character, if any. -/
def rfindChar (c : Char) (p : PyStr) : Option Nat :=
  match p.reverse.findIdx? (· = c) with
  | none => none
  | some j => some (p.length - 1 - j)

/-- Remove all trailing separators (Python `str.rstrip(sep)`). -/
def stripTrailingSlashes (p : PyStr) : PyStr :=
  (p.reverse.dropWhile (· = '/')).reverse

/-- `posixpath.dirname`: everything up to and including the final separator,
with trailing separators stripped unless the head is made of separators only. -/
def pyDirname (p : PyStr) : PyStr :=
  match rfindChar '/' p with
  | none => []
  | some i =>
    let head := p.take (i + 1)
    if head ≠ [] ∧ ¬ head.all (· = '/') then stripTrailingSlashes head else head


/-! ## Filesystem model

A snapshot of the parts of the on-disk state the handlers consult: the set of
existing directories and a map from file paths to contents, both keyed by
canonical absolute paths.  Every operation canonicalises its path argument
with `pyAbspath` against the process working directory, which is how the OS
resolves `.` and `..` segments at the system-call level. -/

structure FS where
  dirs : List PyStr
  files : List (PyStr × PyStr)
  deriving DecidableEq

/-- `os.path.isdir` -/
def FS.isdir (fs : FS) (cwd p : PyStr) : Bool :=
  fs.dirs.contains (pyAbspath cwd p)

/-- `os.path.isfile` -/
def FS.isfile (fs : FS) (cwd p : PyStr) : Bool :=
  (fs.files.map Prod.fst).contains (pyAbspath cwd p)

/-- `os.path.exists` on a string path -/
def FS.existsP (fs : FS) (cwd p : PyStr) : Bool :=
  fs.isdir cwd p || fs.isfile cwd p

/-- Reading a file (`open(p).read()`); `none` when no regular file is at the
canonical path. -/
def FS.read (fs : FS) (cwd p : PyStr) : Option PyStr :=
  (fs.files.find? (fun kv => kv.1 = pyAbspath cwd p)).map Prod.snd

/-- Writing a file (`open(p, "w").write(c)`): replace the contents if the
canonical path is present, otherwise append a new entry. -/
def FS.write (fs : FS) (cwd p content : PyStr) : FS :=
  let key := pyAbspath cwd p
  if (fs.files.map Prod.fst).contains key then
    ⟨fs.dirs, fs.files.map (fun kv => if kv.1 = key then (kv.1, content) else kv)⟩
  else ⟨fs.dirs, fs.files ++ [(key, content)]⟩

/-- `os.remove` -/
def FS.removeFile (fs : FS) (cwd p : PyStr) : FS :=
  ⟨fs.dirs, fs.files.filter (fun kv => ¬ kv.1 = pyAbspath cwd p)⟩

/-- The chain of ancestor directories (and the path itself) of a canonical
absolute path, e.g. `/a/b ↦ [/a, /a/b]`. -/
def ancestorPaths (p : PyStr) : List PyStr :=
  let comps := (p.splitOn '/').filter (· ≠ [])
  (List.range comps.length).map (fun i => '/' :: List.intercalate (pstr "/") (comps.take (i + 1)))

/-- `os.makedirs(p, exist_ok=True)`: create the directory and any missing
ancestors; existing directories are left alone. -/
def FS.mkdirs (fs : FS) (cwd p : PyStr) : FS :=
  ⟨fs.dirs ++ (ancestorPaths (pyAbspath cwd p)).filter (fun d => ¬ fs.dirs.contains d), fs.files⟩

/-! ## Project resolution (`project_setup.get_project_directory`) -/

/-- The module-level constant `projects_directory = "projects"`. -/
def projectsDirName : PyStr := pstr "projects"

/-- `get_project_directory`, translated from `project_setup.py`: an absolute
identifier is returned iff it is an existing directory (with no fallback);
otherwise the managed `<script_path>/projects/<name>` candidate wins if it is
a directory, then the `<cwd>/<name>` candidate; otherwise `None`. -/
def get_project_directory (fs : FS) (script_path cwd project_name : PyStr) : Option PyStr :=
  if pyIsAbs project_name then
    if fs.isdir cwd project_name then some project_name else none
  else
    let default_path := pyJoin (pyJoin script_path projectsDirName) project_name
    if fs.isdir cwd default_path then some default_path
    else
      let cwd_path := pyJoin cwd project_name
      if fs.isdir cwd cwd_path then some cwd_path
      else none

/-! ## Handler outcomes

`Resp.pyError` models an exception escaping the handler body; FastAPI turns
it into a generic HTTP 500 response, distinct from every
`HTTPException`-based outcome.  In particular `os.path.exists(None)` raises
`TypeError` (CPython's `genericpath.exists` catches only `OSError` and
`ValueError`), which is what every handler does after `get_project_directory`
returns `None`. -/

inductive Resp where
  | ok (msg : PyStr)
  | okContent (content : PyStr)
  | okFiles (files : List PyStr)
  | httpError (status : Nat) (detail : PyStr)
  | pyError (exn : PyStr)
  deriving DecidableEq

def tyErr : PyStr := pstr "TypeError"
def projNotFoundMsg : PyStr := pstr "Project not found."
def fileNotFoundMsg : PyStr := pstr "File not found."
def dirNotFoundMsg : PyStr := pstr "Directory not found."
def forbiddenMsg : PyStr := pstr "Access outside the project directory is forbidden."
def createdMsg : PyStr := pstr "File created/replaced successfully."
def deletedMsg : PyStr := pstr "File deleted successfully."
def updatedMsg : PyStr := pstr "File updated successfully."
def invalidRegexMsg : PyStr := pstr "Invalid regex"
def ioErrorMsg : PyStr := pstr "I/O error"

/-- `POST /create_or_replace_file` (`main.create_file`): resolve the project,
join the caller-supplied `filepath` onto it (no containment check), create
the parent directory and write the file. -/
def create_file (fs : FS) (script cwd project_name filepath content : PyStr) : Resp × FS :=
  match get_project_directory fs script cwd project_name with
  | none => (.pyError tyErr, fs)
  | some project_dir =>
    if ¬ fs.existsP cwd project_dir then (.httpError 404 projNotFoundMsg, fs)
    else
      let file_path := pyJoin project_dir filepath
      (.ok createdMsg, (fs.mkdirs cwd (pyDirname file_path)).write cwd file_path content)

/-- `POST /get_file` (`main.get_file`): resolve, join (no containment check),
read.  Opening a path that exists but is not a regular file raises, caught as
a 500. -/
def get_file (fs : FS) (script cwd project_name filepath : PyStr) : Resp × FS :=
  match get_project_directory fs script cwd project_name with
  | none => (.pyError tyErr, fs)
  | some project_dir =>
    if ¬ fs.existsP cwd project_dir then (.httpError 404 projNotFoundMsg, fs)
    else
      let file_path := pyJoin project_dir filepath
      if fs.existsP cwd file_path then
        match fs.read cwd file_path with
        | some content => (.okContent content, fs)
        | none => (.httpError 500 ioErrorMsg, fs)
      else (.httpError 404 fileNotFoundMsg, fs)

/-- `POST /delete_file` (`main.delete_file`): resolve, join (no containment
check), `os.remove`.  Removing a directory raises, caught as a 500. -/
def delete_file (fs : FS) (script cwd project_name filepath : PyStr) : Resp × FS :=
  match get_project_directory fs script cwd project_name with
  | none => (.pyError tyErr, fs)
  | some project_dir =>
    if ¬ fs.existsP cwd project_dir then (.httpError 404 projNotFoundMsg, fs)
    else
      let file_path := pyJoin project_dir filepath
      if fs.existsP cwd file_path then
        if fs.isfile cwd file_path then (.ok deletedMsg, fs.removeFile cwd file_path)
        else (.httpError 500 ioErrorMsg, fs)
      else (.httpError 404 fileNotFoundMsg, fs)

/-! ## `re.sub` (regex substitution)

The compiled pattern is modelled abstractly as a matching function
`m : PyStr → Option Nat`: applied to the remaining input at the current scan
position, it returns the length of the match there, or `none`.  `reSubAux`
is the left-to-right scan of `re.sub` (Python ≥3.7 semantics: an empty match
emits the replacement, keeps the current character and advances one
position).  `decCount` decrements the remaining-replacement budget, where
`none` is the unlimited budget that Python's `count=0` selects. -/

def decCount : Option Nat → Option Nat :=
  Option.map (· - 1)

/-- The scan of `re.sub` with an explicit skip counter: while `skip > 0` the
scanner is moving past the characters consumed by the previous (nonempty)
match; at `skip = 0` it attempts a match at the current position. -/
def reSubGo (m : PyStr → Option Nat) (repl : PyStr) : Option Nat → Nat → PyStr → PyStr
  | _, _ + 1, [] => []
  | cnt, skip + 1, _ :: cs => reSubGo m repl cnt skip cs
  | some 0, 0, s => s
  | _, 0, [] =>
    match m [] with
    | some _ => repl
    | none => []
  | cnt, 0, c :: cs =>
    match m (c :: cs) with
    | none => c :: reSubGo m repl cnt 0 cs
    | some 0 => repl ++ c :: reSubGo m repl (decCount cnt) 0 cs
    | some (k + 1) => repl ++ reSubGo m repl (decCount cnt) k cs

def reSubAux (m : PyStr → Option Nat) (repl : PyStr) (cnt : Option Nat) (s : PyStr) : PyStr :=
  reSubGo m repl cnt 0 s

/-- `re.sub(pattern, repl, s, count)` with Python's convention that
`count = 0` means "replace all occurrences". -/
def re_sub (m : PyStr → Option Nat) (repl : PyStr) (count : Nat) (s : PyStr) : PyStr :=
  reSubAux m repl (if count = 0 then none else some count) s

/-! ## `str.replace` (literal search/replace) -/

/-- `str.replace` for a nonempty search string, with an explicit skip counter
as in `reSubGo`: scan left to right, replacing a prefix occurrence and
resuming after it, until the optional budget runs out (`none` =
unlimited). -/
def replaceGo (old new : PyStr) : Option Nat → Nat → PyStr → PyStr
  | _, _ + 1, [] => []
  | cnt, skip + 1, _ :: cs => replaceGo old new cnt skip cs
  | some 0, 0, s => s
  | _, 0, [] => []
  | cnt, 0, c :: cs =>
    if old.isPrefixOf (c :: cs) then
      new ++ replaceGo old new (decCount cnt) (old.length - 1) cs
    else c :: replaceGo old new cnt 0 cs

def replaceNE (old new : PyStr) (cnt : Option Nat) (s : PyStr) : PyStr :=
  replaceGo old new cnt 0 s

/-- `str.replace` for the empty search string: the replacement is inserted
before every character and at the end, up to the optional budget. -/
def replaceEmpty (new : PyStr) : Option Nat → PyStr → PyStr
  | some 0, s => s
  | _, [] => new
  | cnt, c :: cs => new ++ c :: replaceEmpty new (decCount cnt) cs

/-- Python `s.replace(old, new)` (with `count = none`) and
`s.replace(old, new, n)` (with `count = some n`). -/
def pyReplace (s old new : PyStr) (count : Option Nat) : PyStr :=
  match old with
  | [] => replaceEmpty new count s
  | o :: os => replaceNE (o :: os) new count s


/-- The content transformation of `search_replace_file` (`main.py` lines
235–238): replace all occurrences when `multiple`, else only the first. -/
def searchReplaceContent (content search repl : PyStr) (multiple : Bool) : PyStr :=
  if multiple then pyReplace content search repl none
  else pyReplace content search repl (some 1)

/-- The content transformation of `edit_file_regex` (`main.py` lines
202–207): substitute all matches when `multiple`, else only the first. -/
def regexEditContent (m : PyStr → Option Nat) (repl : PyStr) (multiple : Bool) (content : PyStr) : PyStr :=
  if multiple then re_sub m repl 0 content
  else re_sub m repl 1 content

/-- `POST /edit_file_regex` (`main.edit_file_regex`): resolve, join (no
containment check), read, compile the pattern, substitute and write back.
`compileRes = none` models a pattern on which `re.compile` raises
`re.error`, which the handler catches and maps to HTTP 400 before any
write; `some m` models a successfully compiled pattern with matcher `m`. -/
def edit_file_regex (fs : FS) (script cwd project_name filepath : PyStr)
    (compileRes : Option (PyStr → Option Nat)) (repl : PyStr) (multiple : Bool) : Resp × FS :=
  match get_project_directory fs script cwd project_name with
  | none => (.pyError tyErr, fs)
  | some project_dir =>
    if ¬ fs.existsP cwd project_dir then (.httpError 404 projNotFoundMsg, fs)
    else
      let file_path := pyJoin project_dir filepath
      if ¬ fs.existsP cwd file_path then (.httpError 404 fileNotFoundMsg, fs)
      else
        match fs.read cwd file_path with
        | none => (.httpError 500 ioErrorMsg, fs)
        | some content =>
          match compileRes with
          | none => (.httpError 400 invalidRegexMsg, fs)
          | some m =>
            (.ok updatedMsg, fs.write cwd file_path (regexEditContent m repl multiple content))

/-- `POST /search_replace_file` (`main.search_replace_file`): resolve, join
(no containment check), read, literal-replace and write back. -/
def search_replace_file (fs : FS) (script cwd project_name filepath : PyStr)
    (search repl : PyStr) (multiple : Bool) : Resp × FS :=
  match get_project_directory fs script cwd project_name with
  | none => (.pyError tyErr, fs)
  | some project_dir =>
    if ¬ fs.existsP cwd project_dir then (.httpError 404 projNotFoundMsg, fs)
    else
      let file_path := pyJoin project_dir filepath
      if ¬ fs.existsP cwd file_path then (.httpError 404 fileNotFoundMsg, fs)
      else
        match fs.read cwd file_path with
        | none => (.httpError 500 ioErrorMsg, fs)
        | some content =>
          (.ok updatedMsg, fs.write cwd file_path (searchReplaceContent content search repl multiple))

/-- The containment check of `POST /list_files` (`main.py` lines 152–157),
the only such check in the code: join the caller-supplied sub-path onto the
project directory (`filepath = some []` models Python's falsy empty string,
`none` the absent field, both of which fall back to the project directory),
take `os.path.abspath`, and accept iff that string starts with
`os.path.abspath(project_dir)` — a plain `startswith` with no trailing
separator.  `none` models the 403 Forbidden outcome. -/
def containCheck (cwd project_dir : PyStr) (filepath : Option PyStr) : Option PyStr :=
  let directory_path :=
    match filepath with
    | some fp => if fp ≠ [] then pyJoin project_dir fp else project_dir
    | none => project_dir
  let abs_directory_path := pyAbspath cwd directory_path
  if (pyAbspath cwd project_dir).isPrefixOf abs_directory_path then some abs_directory_path
  else none

/-- The resolution, containment-check and directory-check part of
`POST /list_files` (`main.py` lines 146–162), up to the `os.walk` loop:
`.ok` carries the validated absolute directory that the walk (modelled by
`walkDirTree`) then runs on. -/
def list_files_resolve (fs : FS) (script cwd project_name : PyStr) (filepath : Option PyStr) :
    Except Resp PyStr :=
  match get_project_directory fs script cwd project_name with
  | none => .error (.pyError tyErr)
  | some project_dir =>
    if ¬ fs.existsP cwd project_dir then .error (.httpError 404 projNotFoundMsg)
    else
      match containCheck cwd project_dir filepath with
      | none => .error (.httpError 403 forbiddenMsg)
      | some abs_directory_path =>
        if ¬ fs.isdir cwd abs_directory_path then .error (.httpError 404 dirNotFoundMsg)
        else .ok abs_directory_path

/-! ## Archive extraction (`project_setup.deflate_file`) and
project bootstrap (`project_setup.create_project`) -/

/-- Python `str.endswith`. -/
def pyEndsWith (s suffix : PyStr) : Bool :=
  suffix.isSuffixOf s

/-- The filesystem-visible actions of `deflate_file`, in order. -/
inductive FSEffect where
  | makedirs (dest : PyStr)
  | extractZip (src dest : PyStr)
  | extractTar (src dest : PyStr)
  | logUnsupported
  deriving DecidableEq

/-- `deflate_file`, translated from `project_setup.py`: unconditionally
create the destination directory, then dispatch purely on the filename
suffix — `.zip` to `extract_zip`, `.tar.gz`/`.tgz` to `extract_tar`, and
anything else to a logged no-op (the function returns normally, raising
nothing). -/
def deflate_file (file_path destination_folder : PyStr) : List FSEffect :=
  FSEffect.makedirs destination_folder ::
    (if pyEndsWith file_path (pstr ".zip") then
      [FSEffect.extractZip file_path destination_folder]
    else if pyEndsWith file_path (pstr ".tar.gz") ∨ pyEndsWith file_path (pstr ".tgz") then
      [FSEffect.extractTar file_path destination_folder]
    else [FSEffect.logUnsupported])

/-- `tarfile.extractall` over the model filesystem: write every archive
entry `(relative path, content)` under the destination, in order,
overwriting any existing file at the same canonical path. -/
def applyArchive (fs : FS) (cwd dest : PyStr) (entries : List (PyStr × PyStr)) : FS :=
  entries.foldl (fun acc e => acc.write cwd (pyJoin dest e.1) e.2) fs

/-- `create_project`, translated from `project_setup.py`: the destination is
`<script_path>/projects/<project_name>`; it is created when absent (with no
failure or early return when it already exists), then the bundled
`project.tar.gz` — whose entries are the `entries` parameter — is extracted
into it (`deflate_file` re-runs `makedirs` unconditionally before
extracting). -/
def create_project (fs : FS) (script cwd project_name : PyStr)
    (entries : List (PyStr × PyStr)) : FS :=
  let destination_folder := pyJoin (pyJoin script projectsDirName) project_name
  let fs1 := if fs.existsP cwd destination_folder then fs else fs.mkdirs cwd destination_folder
  let fs2 := fs1.mkdirs cwd destination_folder
  applyArchive fs2 cwd destination_folder entries

/-! ## The `os.walk` loop of `list_files` (`main.py` lines 164–176)

The directory tree under the walked directory is modelled as a rose tree:
a node carries its subdirectories (name plus subtree, in `os.walk`
enumeration order) and its file names.  `walkDirTree t rel` produces exactly
the `file_list` of the handler for a walk whose root directory is `rel`
(as a component list) below `project_dir`; a listing of the whole project
is `walkDirTree t []`. -/

mutual
inductive DirTree : Type where
  | node : DirForest → List PyStr → DirTree
inductive DirForest : Type where
  | nil : DirForest
  | cons : PyStr → DirTree → DirForest → DirForest
end

def nmStr : PyStr := pstr "node_modules"

def uiPref : PyStr := pstr "src/components/ui"

/-- `os.path.relpath(d, project_dir)` for a directory `d` given by its
component chain below `project_dir`: `"."` for the root itself, else the
components joined with `/`. -/
def relOfDir (ds : List PyStr) : PyStr :=
  match ds with
  | [] => pstr "."
  | _ => List.intercalate (pstr "/") ds

/-- `os.path.relpath(os.path.join(root, f), project_dir)` for a file `f` in
the directory with component chain `ds`. -/
def relOfFile (ds : List PyStr) (f : PyStr) : PyStr :=
  List.intercalate (pstr "/") (ds ++ [f])

mutual
/-- One `os.walk` visit: unless the directory's relative path starts with
`src/components/ui` (the `continue` in the handler, which skips the file
loop but not the descent), emit this directory's files relative to the
project root; then walk the subdirectories, with the first subdirectory
named `node_modules` removed (`dirs.remove('node_modules')`). -/
def walkDirTree : DirTree → List PyStr → List PyStr
  | .node ds fs, rel =>
    (if uiPref.isPrefixOf (relOfDir rel) then [] else fs.map (fun f => relOfFile rel f))
      ++ walkDirForest ds false rel
/-- Walk the subdirectory list; `removed` records whether the single
`dirs.remove('node_modules')` has already taken effect. -/
def walkDirForest : DirForest → Bool → List PyStr → List PyStr
  | .nil, _, _ => []
  | .cons name child rest, removed, rel =>
    if name = nmStr ∧ removed = false then walkDirForest rest true rel
    else walkDirTree child (rel ++ [name]) ++ walkDirForest rest removed rel
end

mutual
/-- All files of the tree paired with their directory component chain, in
walk order and with no exclusions: the reference against which the walk's
filtering is stated. -/
def allEntriesT : DirTree → List (List PyStr × PyStr)
  | .node ds fs => fs.map (fun f => ([], f)) ++ allEntriesF ds
def allEntriesF : DirForest → List (List PyStr × PyStr)
  | .nil => []
  | .cons name child rest =>
    (allEntriesT child).map (fun e => (name :: e.1, e.2)) ++ allEntriesF rest
end

/-- A directory or file name as the OS can produce it: it never contains the
path separator. -/
def validNameB (n : PyStr) : Bool :=
  ¬ n.contains '/'

def forestNames : DirForest → List PyStr
  | .nil => []
  | .cons name _ rest => name :: forestNames rest

mutual
/-- Well-formedness of a directory snapshot: sibling directory names are
distinct, file names within a directory are distinct, and all names are
separator-free. -/
def wfDirTree : DirTree → Bool
  | .node ds fs =>
    decide fs.Nodup && fs.all validNameB && decide (forestNames ds).Nodup
      && (forestNames ds).all validNameB && wfDirForest ds
def wfDirForest : DirForest → Bool
  | .nil => true
  | .cons _ child rest => wfDirTree child && wfDirForest rest
end

/-- The exclusion rule the walk implements, as a predicate on an entry of
`allEntriesT`: drop files with a `node_modules` component in their chain
below the walk root, and files whose directory's path relative to the
project root starts with `src/components/ui`. -/
def keepEntry (rel : List PyStr) (e : List PyStr × PyStr) : Bool :=
  ¬ e.1.contains nmStr && ¬ uiPref.isPrefixOf (relOfDir (rel ++ e.1))

instance {ε α : Type} [DecidableEq ε] [DecidableEq α] : DecidableEq (Except ε α) := fun a b =>
  match a, b with
  | .error x, .error y =>
    match decEq x y with
    | isTrue h => isTrue (congrArg Except.error h)
    | isFalse h => isFalse fun hh => h (Except.error.inj hh)
  | .ok x, .ok y =>
    match decEq x y with
    | isTrue h => isTrue (congrArg Except.ok h)
    | isFalse h => isFalse fun hh => h (Except.ok.inj hh)
  | .error _, .ok _ => isFalse fun hh => Except.noConfusion hh
  | .ok _, .error _ => isFalse fun hh => Except.noConfusion hh

/-! ## Concrete fixtures used by witnesses and counterexamples -/

/-- A host with project root `/a/proj` and a sensitive file outside it. -/
def fsC1 : FS :=
  ⟨[pstr "/", pstr "/a", pstr "/a/proj", pstr "/etc"], [(pstr "/etc/passwd", pstr "root:secret")]⟩

/-- A host where both the managed-workspace candidate and the cwd candidate
for identifier `demo` exist. -/
def fsC3 : FS :=
  ⟨[pstr "/", pstr "/app", pstr "/app/projects", pstr "/app/projects/demo",
    pstr "/w", pstr "/w/demo"], []⟩

/-- A host with no directory matching the identifier `missing` anywhere. -/
def fsC4 : FS :=
  ⟨[pstr "/", pstr "/srv", pstr "/srv/app", pstr "/home", pstr "/home/user"], []⟩

/-- A host with one managed project `demo` containing the file `a.txt`. -/
def fsC67 : FS :=
  ⟨[pstr "/", pstr "/app", pstr "/app/projects", pstr "/app/projects/demo"],
   [(pstr "/app/projects/demo/a.txt", pstr "hi")]⟩

/-- A host where the managed project directory `demo` already exists and
contains an `index.html` that collides with the template archive. -/
def fsC10 : FS :=
  ⟨[pstr "/", pstr "/app", pstr "/app/projects", pstr "/app/projects/demo"],
   [(pstr "/app/projects/demo/index.html", pstr "old")]⟩

/-- The example tree of the listing claim: `index.html`,
`node_modules/pkg/index.js` and `src/components/ui/button.tsx`. -/
def exTreeC9 : DirTree :=
  .node
    (.cons (pstr "node_modules")
      (.node (.cons (pstr "pkg") (.node .nil [pstr "index.js"]) .nil) [])
      (.cons (pstr "src")
        (.node
          (.cons (pstr "components")
            (.node
              (.cons (pstr "ui") (.node .nil [pstr "button.tsx"]) .nil)
              []) .nil)
          []) .nil))
    [pstr "index.html"]

/-- A tree with a file `src/components/ui-helpers.ts` directly inside
`src/components`: its path relative to the root starts with the string
`src/components/ui`, yet its directory is not skipped. -/
def cexTreeC9 : DirTree :=
  .node
    (.cons (pstr "src")
      (.node
        (.cons (pstr "components") (.node .nil [pstr "ui-helpers.ts"]) .nil)
        []) .nil)
    []

/-! ## C3: resolution order of `get_project_directory` -/

/-- C3: project resolution follows the fixed order with first match winning
and no fallback past the list: an absolute identifier resolves iff it is an
existing directory (no fallthrough); a relative identifier resolves to the
managed `<script>/projects/<name>` candidate when that is a directory —
regardless of the cwd candidate — and otherwise to the `<cwd>/<name>`
candidate when that is a directory. -/
theorem c3_resolution_order (fs : FS) (script cwd name : PyStr) :
    (pyIsAbs name = true →
      get_project_directory fs script cwd name =
        (if fs.isdir cwd name then some name else none))
    ∧ (pyIsAbs name = false →
        fs.isdir cwd (pyJoin (pyJoin script projectsDirName) name) = true →
        get_project_directory fs script cwd name =
          some (pyJoin (pyJoin script projectsDirName) name))
    ∧ (pyIsAbs name = false →
        fs.isdir cwd (pyJoin (pyJoin script projectsDirName) name) = false →
        fs.isdir cwd (pyJoin cwd name) = true →
        get_project_directory fs script cwd name = some (pyJoin cwd name)) := by
  refine ⟨fun h => ?_, fun h h1 => ?_, fun h h1 h2 => ?_⟩
  · simp [get_project_directory, h]
  · simp [get_project_directory, h, h1]
  · simp [get_project_directory, h, h1, h2]

/-- Witness for C3: with both the managed candidate `/app/projects/demo` and
the cwd candidate `/w/demo` existing, the managed one is returned. -/
theorem c3_resolution_order_witness :
    (pyIsAbs (pstr "demo") = false
      ∧ fsC3.isdir (pstr "/w") (pyJoin (pyJoin (pstr "/app") projectsDirName) (pstr "demo")) = true
      ∧ fsC3.isdir (pstr "/w") (pyJoin (pstr "/w") (pstr "demo")) = true)
    ∧ get_project_directory fsC3 (pstr "/app") (pstr "/w") (pstr "demo")
        = some (pyJoin (pyJoin (pstr "/app") projectsDirName) (pstr "demo")) :=
  ⟨⟨by decide, by decide, by decide⟩,
    (c3_resolution_order fsC3 (pstr "/app") (pstr "/w") (pstr "demo")).2.1 (by decide) (by decide)⟩

/-! ## C4: unresolvable identifiers do not produce the 404 outcome -/

/-- C4 (code bug): for the identifier `missing`, which matches none of the
three resolution rules, `get_project_directory` returns `None`; every core
operation then evaluates `os.path.exists(None)`, which raises an uncaught
`TypeError` (surfaced by FastAPI as a generic 500), not the distinct
`ProjectNotFound` 404 outcome the handlers' own next line intends. -/
theorem c4_unresolvable_project_type_error :
    get_project_directory fsC4 (pstr "/srv/app") (pstr "/home/user") (pstr "missing") = none
    ∧ create_file fsC4 (pstr "/srv/app") (pstr "/home/user") (pstr "missing") (pstr "a.txt") (pstr "x")
        = (Resp.pyError tyErr, fsC4)
    ∧ get_file fsC4 (pstr "/srv/app") (pstr "/home/user") (pstr "missing") (pstr "a.txt")
        = (Resp.pyError tyErr, fsC4)
    ∧ delete_file fsC4 (pstr "/srv/app") (pstr "/home/user") (pstr "missing") (pstr "a.txt")
        = (Resp.pyError tyErr, fsC4)
    ∧ edit_file_regex fsC4 (pstr "/srv/app") (pstr "/home/user") (pstr "missing") (pstr "a.txt")
        (some (fun _ => none)) (pstr "y") true = (Resp.pyError tyErr, fsC4)
    ∧ search_replace_file fsC4 (pstr "/srv/app") (pstr "/home/user") (pstr "missing") (pstr "a.txt")
        (pstr "a") (pstr "b") true = (Resp.pyError tyErr, fsC4)
    ∧ list_files_resolve fsC4 (pstr "/srv/app") (pstr "/home/user") (pstr "missing") none
        = Except.error (Resp.pyError tyErr)
    ∧ ∀ d, Resp.pyError tyErr ≠ Resp.httpError 404 d := by
  refine ⟨by decide, ?_, ?_, ?_, ?_, ?_, by decide, fun d => by simp⟩ <;>
    simp [create_file, get_file, delete_file, edit_file_regex, search_replace_file,
      show get_project_directory fsC4 (pstr "/srv/app") (pstr "/home/user") (pstr "missing") = none
        from by decide]

/-! ## C1: the five file operations never run the containment check -/

/-- C1 (code bug): unlike `list_files`, the file operations join the
caller-supplied `filepath` onto the project root with no containment check.
With project root `/a/proj`, the traversal input `../../etc/passwd` resolves
to `/etc/passwd`, outside the root: `get_file` serves it with a success
response, `create_or_replace_file` writes `/etc/evil.txt` outside the root
and reports success, and `delete_file` removes `/etc/passwd` — none of them
returns the Forbidden 403 outcome. -/
theorem c1_missing_containment_check :
    get_file fsC1 (pstr "/srv") (pstr "/") (pstr "/a/proj") (pstr "../../etc/passwd")
      = (Resp.okContent (pstr "root:secret"), fsC1)
    ∧ pyAbspath (pstr "/") (pyJoin (pstr "/a/proj") (pstr "../../etc/passwd")) = pstr "/etc/passwd"
    ∧ (pstr "/a/proj/").isPrefixOf (pstr "/etc/passwd") = false
    ∧ create_file fsC1 (pstr "/srv") (pstr "/") (pstr "/a/proj") (pstr "../../etc/evil.txt") (pstr "pwned")
      = (Resp.ok createdMsg, ⟨fsC1.dirs, fsC1.files ++ [(pstr "/etc/evil.txt", pstr "pwned")]⟩)
    ∧ pyAbspath (pstr "/") (pyJoin (pstr "/a/proj") (pstr "../../etc/evil.txt")) = pstr "/etc/evil.txt"
    ∧ (pstr "/a/proj/").isPrefixOf (pstr "/etc/evil.txt") = false
    ∧ delete_file fsC1 (pstr "/srv") (pstr "/") (pstr "/a/proj") (pstr "../../etc/passwd")
      = (Resp.ok deletedMsg, ⟨fsC1.dirs, []⟩) := by
  decide

/-! ## C2: the containment check compares without a trailing separator -/

/-- Counterexample to C2 as stated: with root `/a/proj` and input
`../project2`, the canonical absolute form `/a/project2` lies outside the
root (it is neither the root nor below `/a/proj/`), yet `containCheck` does
not return Forbidden — because the code compares with `startswith` against
the root's path with no trailing separator. -/
theorem c2_contain_claim_counterexample :
    pyAbspath (pstr "/") (pyJoin (pstr "/a/proj") (pstr "../project2")) = pstr "/a/project2"
    ∧ pstr "/a/project2" ≠ pstr "/a/proj"
    ∧ (pstr "/a/proj" ++ pstr "/").isPrefixOf (pstr "/a/project2") = false
    ∧ containCheck (pstr "/") (pstr "/a/proj") (some (pstr "../project2"))
        = some (pstr "/a/project2") := by
  decide

/-- C2 as amended: the comparison prefix is the root's canonical path
*without* a trailing separator.  For any normalised absolute root and any
nonempty relative input: if the canonical absolute form of the join is the
root itself or lies below `root ++ "/"` (it stays within the root), the
check returns that correct absolute path; if the canonical form does not
even extend the root's path string, the check returns Forbidden.  (A sibling
whose absolute path merely extends the root's path string — the
counterexample — passes the check.) -/
theorem c2_contain_no_trailing_separator (cwd root rel : PyStr)
    (hab : pyIsAbs root = true) (hnorm : pyNormpath root = root) (hrel : rel ≠ []) :
    ((pyAbspath cwd (pyJoin root rel) = root
        ∨ (root ++ pstr "/").isPrefixOf (pyAbspath cwd (pyJoin root rel)) = true) →
      containCheck cwd root (some rel) = some (pyAbspath cwd (pyJoin root rel)))
    ∧ (root.isPrefixOf (pyAbspath cwd (pyJoin root rel)) = false →
      containCheck cwd root (some rel) = none) := by
  have habs : pyAbspath cwd root = root := by
    have hj : pyJoin cwd root = root := by simp [pyJoin, hab]
    simp [pyAbspath, hj, hnorm]
  constructor
  · intro h
    have hpre : root.isPrefixOf (pyAbspath cwd (pyJoin root rel)) = true := by
      rcases h with h | h
      · simp [h]
      · have h2 : (root ++ pstr "/") <+: pyAbspath cwd (pyJoin root rel) := by
          simpa using h
        have h3 : root <+: pyAbspath cwd (pyJoin root rel) :=
          (List.prefix_append root (pstr "/")).trans h2
        simpa using h3
    simp [containCheck, hrel, habs, hpre]
  · intro h
    simp [containCheck, hrel, habs, h]

/-- Witness for the amended C2: root `/a/proj` is absolute and normalised;
the in-root input `sub` yields the correct absolute path `/a/proj/sub`, and
the escaping input `../../etc` (canonical form `/etc`, which does not extend
the root's string) is Forbidden. -/
theorem c2_contain_no_trailing_separator_witness :
    (pyIsAbs (pstr "/a/proj") = true ∧ pyNormpath (pstr "/a/proj") = pstr "/a/proj"
      ∧ pstr "sub" ≠ ([] : PyStr) ∧ pstr "../../etc" ≠ ([] : PyStr))
    ∧ containCheck (pstr "/") (pstr "/a/proj") (some (pstr "sub")) = some (pstr "/a/proj/sub")
    ∧ containCheck (pstr "/") (pstr "/a/proj") (some (pstr "../../etc")) = none :=
  ⟨⟨by decide, by decide, by decide, by decide⟩,
    (by decide :
        pyAbspath (pstr "/") (pyJoin (pstr "/a/proj") (pstr "sub")) = pstr "/a/proj/sub") ▸
      (c2_contain_no_trailing_separator (pstr "/") (pstr "/a/proj") (pstr "sub")
        (by decide) (by decide) (by decide)).1 (Or.inr (by decide)),
    (c2_contain_no_trailing_separator (pstr "/") (pstr "/a/proj") (pstr "../../etc")
      (by decide) (by decide) (by decide)).2 (by decide)⟩

/-! ## C8: archive dispatch is purely by filename suffix -/

/-- C8: `deflate_file` creates the destination directory and then dispatches
purely on the filename suffix: `.zip` is extracted as zip; `.tar.gz`/`.tgz`
as gzip-compressed tar; any other suffix performs no extraction and raises
nothing — the unsupported format is only logged, a no-op extraction.  In the
supported cases the (recursive) directory creation precedes the
extraction. -/
theorem c8_archive_dispatch (fp dest : PyStr) :
    (pyEndsWith fp (pstr ".zip") = true →
      deflate_file fp dest = [FSEffect.makedirs dest, FSEffect.extractZip fp dest])
    ∧ (pyEndsWith fp (pstr ".zip") = false →
        (pyEndsWith fp (pstr ".tar.gz") = true ∨ pyEndsWith fp (pstr ".tgz") = true) →
        deflate_file fp dest = [FSEffect.makedirs dest, FSEffect.extractTar fp dest])
    ∧ (pyEndsWith fp (pstr ".zip") = false → pyEndsWith fp (pstr ".tar.gz") = false →
        pyEndsWith fp (pstr ".tgz") = false →
        deflate_file fp dest = [FSEffect.makedirs dest, FSEffect.logUnsupported]) := by
  refine ⟨fun h => ?_, fun h h1 => ?_, fun h h1 h2 => ?_⟩
  · simp [deflate_file, h]
  · rcases h1 with h1 | h1 <;> simp [deflate_file, h, h1]
  · simp [deflate_file, h, h1, h2]

/-- Witness for C8 on the three suffix classes `t.zip`, `t.tgz`, `t.rar`. -/
theorem c8_archive_dispatch_witness :
    (pyEndsWith (pstr "t.zip") (pstr ".zip") = true
      ∧ deflate_file (pstr "t.zip") (pstr "/d")
          = [FSEffect.makedirs (pstr "/d"), FSEffect.extractZip (pstr "t.zip") (pstr "/d")])
    ∧ (pyEndsWith (pstr "t.tgz") (pstr ".tgz") = true
      ∧ deflate_file (pstr "t.tgz") (pstr "/d")
          = [FSEffect.makedirs (pstr "/d"), FSEffect.extractTar (pstr "t.tgz") (pstr "/d")])
    ∧ (pyEndsWith (pstr "t.rar") (pstr ".zip") = false
      ∧ deflate_file (pstr "t.rar") (pstr "/d")
          = [FSEffect.makedirs (pstr "/d"), FSEffect.logUnsupported]) :=
  ⟨⟨by decide, (c8_archive_dispatch (pstr "t.zip") (pstr "/d")).1 (by decide)⟩,
   ⟨by decide, (c8_archive_dispatch (pstr "t.tgz") (pstr "/d")).2.1 (by decide) (Or.inr (by decide))⟩,
   ⟨by decide, (c8_archive_dispatch (pstr "t.rar") (pstr "/d")).2.2 (by decide) (by decide) (by decide)⟩⟩

/-! ## C5: literal replace occurrence semantics -/

theorem replaceGo_count_zero (old new : PyStr) (s : PyStr) :
    replaceGo old new (some 0) 0 s = s := by
  cases s <;> rfl

theorem replaceGo_nil (old new : PyStr) (cnt : Option Nat) :
    replaceGo old new cnt 0 [] = [] := by
  rcases cnt with _ | n
  · rfl
  · cases n <;> rfl

theorem replaceGo_skip_nil (old new : PyStr) (cnt : Option Nat) (k : Nat) :
    replaceGo old new cnt (k + 1) [] = [] := by
  rcases cnt with _ | n
  · rfl
  · cases n <;> rfl

theorem replaceGo_skip_cons (old new : PyStr) (cnt : Option Nat) (k : Nat) (c : Char) (cs : PyStr) :
    replaceGo old new cnt (k + 1) (c :: cs) = replaceGo old new cnt k cs := by
  rcases cnt with _ | n
  · rfl
  · cases n <;> rfl

theorem replaceGo_cons (old new : PyStr) (cnt : Option Nat) (c : Char) (cs : PyStr)
    (hcnt : cnt ≠ some 0) :
    replaceGo old new cnt 0 (c :: cs) =
      if old.isPrefixOf (c :: cs) then
        new ++ replaceGo old new (decCount cnt) (old.length - 1) cs
      else c :: replaceGo old new cnt 0 cs := by
  rcases cnt with _ | n
  · rfl
  · cases n
    · exact absurd rfl hcnt
    · rfl

theorem replaceGo_skip (old new : PyStr) (cnt : Option Nat) :
    ∀ (k : Nat) (s : PyStr), replaceGo old new cnt k s = replaceGo old new cnt 0 (s.drop k) := by
  intro k
  induction k with
  | zero => intro s; rfl
  | succ k ih =>
    intro s
    cases s with
    | nil => rw [replaceGo_skip_nil, List.drop_nil, replaceGo_nil]
    | cons c cs => rw [replaceGo_skip_cons, List.drop_succ_cons, ih cs]

theorem replaceGo_no_occ (old new : PyStr) (cnt : Option Nat) (s : PyStr)
    (h : ∀ i, i ≤ s.length → old.isPrefixOf (s.drop i) = false) :
    replaceGo old new cnt 0 s = s := by
  induction s with
  | nil => exact replaceGo_nil old new cnt
  | cons c cs ih =>
    by_cases hcnt : cnt = some 0
    · subst hcnt; exact replaceGo_count_zero old new (c :: cs)
    · rw [replaceGo_cons old new cnt c cs hcnt]
      have h0 : old.isPrefixOf (c :: cs) = false := by simpa using h 0 (by omega)
      rw [if_neg (by simp [h0])]
      have ih2 := ih (fun i hi => by
        simpa [List.drop_succ_cons] using h (i + 1) (by simpa using hi))
      rw [ih2]

theorem replaceGo_first_occ (old new : PyStr) (cnt : Option Nat) (a b : PyStr)
    (hne : old ≠ []) (hcnt : cnt ≠ some 0)
    (hleft : ∀ i, i < a.length → old.isPrefixOf ((a ++ old ++ b).drop i) = false) :
    replaceGo old new cnt 0 (a ++ old ++ b) =
      a ++ new ++ replaceGo old new (decCount cnt) 0 b := by
  induction a with
  | nil =>
    rcases old with _ | ⟨o, os⟩
    · exact absurd rfl hne
    · have e : (([] : PyStr) ++ (o :: os) ++ b) = o :: (os ++ b) := by simp
      rw [e, replaceGo_cons _ _ _ _ _ hcnt]
      have hp : (o :: os).isPrefixOf (o :: (os ++ b)) = true := by
        rw [List.isPrefixOf_iff_prefix]
        exact ⟨b, by simp⟩
      rw [if_pos hp, replaceGo_skip]
      have hd : (os ++ b).drop ((o :: os).length - 1) = b := by
        rw [List.length_cons, Nat.add_sub_cancel, List.drop_left]
      rw [hd, List.nil_append]
  | cons x a' ih =>
    have e : ((x :: a') ++ old ++ b) = x :: (a' ++ old ++ b) := by simp
    rw [e, replaceGo_cons _ _ _ _ _ hcnt]
    have h0 : old.isPrefixOf (x :: (a' ++ old ++ b)) = false := by
      have h1 := hleft 0 (by simp)
      rw [List.drop_zero, e] at h1
      exact h1
    rw [if_neg (show ¬ old.isPrefixOf (x :: (a' ++ old ++ b)) = true by rw [h0]; simp)]
    have ih2 := ih (fun i hi => by
      have h1 := hleft (i + 1) (by simpa using Nat.succ_lt_succ hi)
      rw [e, List.drop_succ_cons] at h1
      exact h1)
    rw [ih2]
    simp

/-- C5: literal occurrence semantics of `search_replace_file`'s content
transformation.  For a nonempty search string `s` whose leftmost occurrence
in the content splits it as `a ++ s ++ b`: with `multiple = false` exactly
that first occurrence is replaced (the suffix `b`, holding every later
occurrence, is untouched); with `multiple = true` the first occurrence is
replaced and replacement continues through the rest, and content with no
occurrence at all is returned unchanged — so all N occurrences are
replaced. -/
theorem c5_literal_replace_semantics (a b s t c : PyStr)
    (hs : s ≠ [])
    (hleft : ∀ i, i < a.length → s.isPrefixOf ((a ++ s ++ b).drop i) = false)
    (hnone : ∀ i, i ≤ c.length → s.isPrefixOf (c.drop i) = false) :
    searchReplaceContent (a ++ s ++ b) s t false = a ++ t ++ b
    ∧ searchReplaceContent (a ++ s ++ b) s t true = a ++ t ++ searchReplaceContent b s t true
    ∧ searchReplaceContent c s t false = c
    ∧ searchReplaceContent c s t true = c := by
  rcases s with _ | ⟨o, os⟩
  · exact absurd rfl hs
  refine ⟨?_, ?_, ?_, ?_⟩
  · show replaceGo (o :: os) t (some 1) 0 (a ++ (o :: os) ++ b) = a ++ t ++ b
    rw [replaceGo_first_occ (o :: os) t (some 1) a b (by simp) (by decide) hleft]
    show a ++ t ++ replaceGo (o :: os) t (some 0) 0 b = a ++ t ++ b
    rw [replaceGo_count_zero]
  · show replaceGo (o :: os) t none 0 (a ++ (o :: os) ++ b)
        = a ++ t ++ replaceGo (o :: os) t none 0 b
    rw [replaceGo_first_occ (o :: os) t none a b (by simp) (by simp) hleft]
    rfl
  · exact replaceGo_no_occ (o :: os) t (some 1) c hnone
  · exact replaceGo_no_occ (o :: os) t none c hnone

/-- Witness for C5: content `xAByABz` holds the search string `AB` twice;
with `multiple = false` only the first becomes `CD`, with `multiple = true`
the tail is processed further; `qq` with no occurrence is unchanged. -/
theorem c5_literal_replace_semantics_witness :
    ((pstr "AB") ≠ ([] : PyStr)
      ∧ (∀ i, i < (pstr "x").length →
          (pstr "AB").isPrefixOf ((pstr "x" ++ pstr "AB" ++ pstr "yABz").drop i) = false)
      ∧ (∀ i, i ≤ (pstr "qq").length →
          (pstr "AB").isPrefixOf ((pstr "qq").drop i) = false))
    ∧ (searchReplaceContent (pstr "x" ++ pstr "AB" ++ pstr "yABz") (pstr "AB") (pstr "CD") false
        = pstr "x" ++ pstr "CD" ++ pstr "yABz"
      ∧ searchReplaceContent (pstr "x" ++ pstr "AB" ++ pstr "yABz") (pstr "AB") (pstr "CD") true
        = pstr "x" ++ pstr "CD" ++ searchReplaceContent (pstr "yABz") (pstr "AB") (pstr "CD") true
      ∧ searchReplaceContent (pstr "qq") (pstr "AB") (pstr "CD") false = pstr "qq"
      ∧ searchReplaceContent (pstr "qq") (pstr "AB") (pstr "CD") true = pstr "qq") :=
  ⟨⟨by decide, by decide, by decide⟩,
    c5_literal_replace_semantics (pstr "x") (pstr "yABz") (pstr "AB") (pstr "CD") (pstr "qq")
      (by decide) (by decide) (by decide)⟩

/-! ## C6 and C7: regex edits -/

theorem map_id_of_mem {α : Type} (l : List α) (f : α → α) (h : ∀ x ∈ l, f x = x) :
    l.map f = l := by
  induction l with
  | nil => rfl
  | cons a t ih =>
    rw [List.map_cons, h a (by simp), ih (fun x hx => h x (by simp [hx]))]

theorem find?_replace_id (files : List (PyStr × PyStr)) (key v : PyStr)
    (hkeys : (files.map Prod.fst).Nodup)
    (hfind : (files.find? (fun kv => kv.1 = key)).map Prod.snd = some v) :
    (files.map Prod.fst).contains key = true
    ∧ files.map (fun kv => if kv.1 = key then (kv.1, v) else kv) = files := by
  induction files with
  | nil => simp at hfind
  | cons kv rest ih =>
    rw [List.map_cons, List.nodup_cons] at hkeys
    by_cases hk : kv.1 = key
    · have hv : kv.2 = v := by
        rw [List.find?_cons_of_pos _ (by simp [hk])] at hfind
        simpa using hfind
      constructor
      · simp [hk]
      · rw [List.map_cons]
        have hhead : (if kv.1 = key then (kv.1, v) else kv) = kv := by
          rw [if_pos hk, ← hv]
        rw [hhead, map_id_of_mem rest _ (fun e he => by
          have : e.1 ≠ key := fun hek => hkeys.1 (hk ▸ hek ▸ List.mem_map_of_mem Prod.fst he)
          simp [this])]
    · rw [List.find?_cons_of_neg _ (by simp [hk])] at hfind
      obtain ⟨hc, hm⟩ := ih hkeys.2 hfind
      constructor
      · rw [List.map_cons, List.contains_cons, hc, Bool.or_true]
      · rw [List.map_cons, if_neg hk, hm]

/-- Writing back the contents a file already has is a no-op on the
filesystem state (for a well-formed file table with distinct keys). -/
theorem FS.write_same (fs : FS) (cwd p v : PyStr)
    (hkeys : (fs.files.map Prod.fst).Nodup)
    (hread : fs.read cwd p = some v) :
    fs.write cwd p v = fs := by
  obtain ⟨hc, hm⟩ := find?_replace_id fs.files (pyAbspath cwd p) v hkeys hread
  rw [FS.write, if_pos hc, hm]

theorem reSubGo_count_zero (m : PyStr → Option Nat) (repl : PyStr) (s : PyStr) :
    reSubGo m repl (some 0) 0 s = s := by
  cases s <;> rfl

theorem reSubGo_no_match (m : PyStr → Option Nat) (repl : PyStr) (cnt : Option Nat) (s : PyStr)
    (h : ∀ i, i ≤ s.length → m (s.drop i) = none) :
    reSubGo m repl cnt 0 s = s := by
  induction s with
  | nil =>
    have h0 : m [] = none := by simpa using h 0 (by omega)
    rcases cnt with _ | n
    · simp [reSubGo, h0]
    · cases n
      · rfl
      · simp [reSubGo, h0]
  | cons c cs ih =>
    have h0 : m (c :: cs) = none := by simpa using h 0 (by omega)
    have ih2 := ih (fun i hi => by
      simpa [List.drop_succ_cons] using h (i + 1) (by simpa using hi))
    rcases cnt with _ | n
    · simp [reSubGo, h0, ih2]
    · cases n
      · rfl
      · simp only [reSubGo, h0]
        rw [ih2]

/-- C6: applying `edit_file_regex` with a successfully compiled pattern that
matches nowhere in the file is not an error: it returns the success
response and leaves the filesystem — in particular the file's contents —
unchanged, and a second application does the same, so the edit is
idempotent on non-matching input. -/
theorem c6_regex_edit_no_match_noop (fs : FS) (script cwd name fp repl : PyStr)
    (m : PyStr → Option Nat) (multiple : Bool) (pd content : PyStr)
    (hpd : get_project_directory fs script cwd name = some pd)
    (hex : fs.existsP cwd pd = true)
    (hfile : fs.existsP cwd (pyJoin pd fp) = true)
    (hkeys : (fs.files.map Prod.fst).Nodup)
    (hread : fs.read cwd (pyJoin pd fp) = some content)
    (hnm : ∀ i, i ≤ content.length → m (content.drop i) = none) :
    edit_file_regex fs script cwd name fp (some m) repl multiple = (Resp.ok updatedMsg, fs)
    ∧ edit_file_regex ((edit_file_regex fs script cwd name fp (some m) repl multiple).2)
        script cwd name fp (some m) repl multiple = (Resp.ok updatedMsg, fs) := by
  have hcontent : regexEditContent m repl multiple content = content := by
    cases multiple
    · exact reSubGo_no_match m repl (some 1) content hnm
    · exact reSubGo_no_match m repl none content hnm
  have h1 : edit_file_regex fs script cwd name fp (some m) repl multiple
      = (Resp.ok updatedMsg, fs) := by
    rw [edit_file_regex, hpd]
    simp [hex, hfile, hread, hcontent,
      FS.write_same fs cwd (pyJoin pd fp) content hkeys hread]
  exact ⟨h1, by rw [h1]; exact h1⟩

/-- C7: for a pattern that fails to compile, `edit_file_regex` returns the
InvalidPattern outcome as a client error (HTTP 400, not a 500 server
fault), and the filesystem — in particular the target file — is unchanged:
the failure happens after the read but before any write. -/
theorem c7_invalid_pattern_client_error (fs : FS) (script cwd name fp repl : PyStr)
    (multiple : Bool) (pd content : PyStr)
    (hpd : get_project_directory fs script cwd name = some pd)
    (hex : fs.existsP cwd pd = true)
    (hfile : fs.existsP cwd (pyJoin pd fp) = true)
    (hread : fs.read cwd (pyJoin pd fp) = some content) :
    edit_file_regex fs script cwd name fp none repl multiple
      = (Resp.httpError 400 invalidRegexMsg, fs)
    ∧ (edit_file_regex fs script cwd name fp none repl multiple).2.read cwd (pyJoin pd fp)
      = some content := by
  have h1 : edit_file_regex fs script cwd name fp none repl multiple
      = (Resp.httpError 400 invalidRegexMsg, fs) := by
    rw [edit_file_regex, hpd]
    simp [hex, hfile, hread]
  exact ⟨h1, by rw [h1]; exact hread⟩

/-- Witness for C6 on the project `demo` and file `a.txt` (contents `hi`),
with a matcher that matches nowhere. -/
theorem c6_regex_edit_no_match_noop_witness :
    (get_project_directory fsC67 (pstr "/app") (pstr "/w") (pstr "demo")
        = some (pstr "/app/projects/demo")
      ∧ fsC67.existsP (pstr "/w") (pstr "/app/projects/demo") = true
      ∧ fsC67.existsP (pstr "/w") (pyJoin (pstr "/app/projects/demo") (pstr "a.txt")) = true
      ∧ (fsC67.files.map Prod.fst).Nodup
      ∧ fsC67.read (pstr "/w") (pyJoin (pstr "/app/projects/demo") (pstr "a.txt"))
          = some (pstr "hi"))
    ∧ (edit_file_regex fsC67 (pstr "/app") (pstr "/w") (pstr "demo") (pstr "a.txt")
          (some (fun _ => none)) (pstr "X") true = (Resp.ok updatedMsg, fsC67)
      ∧ edit_file_regex
          ((edit_file_regex fsC67 (pstr "/app") (pstr "/w") (pstr "demo") (pstr "a.txt")
            (some (fun _ => none)) (pstr "X") true).2)
          (pstr "/app") (pstr "/w") (pstr "demo") (pstr "a.txt")
          (some (fun _ => none)) (pstr "X") true = (Resp.ok updatedMsg, fsC67)) :=
  ⟨⟨by decide, by decide, by decide, by decide, by decide⟩,
    c6_regex_edit_no_match_noop fsC67 (pstr "/app") (pstr "/w") (pstr "demo") (pstr "a.txt")
      (pstr "X") (fun _ => none) true (pstr "/app/projects/demo") (pstr "hi")
      (by decide) (by decide) (by decide) (by decide) (by decide) (fun _ _ => rfl)⟩

/-- Witness for C7: a failed compile on the same project and file yields the
400 outcome and the file still reads `hi`. -/
theorem c7_invalid_pattern_client_error_witness :
    (get_project_directory fsC67 (pstr "/app") (pstr "/w") (pstr "demo")
        = some (pstr "/app/projects/demo")
      ∧ fsC67.existsP (pstr "/w") (pstr "/app/projects/demo") = true
      ∧ fsC67.existsP (pstr "/w") (pyJoin (pstr "/app/projects/demo") (pstr "a.txt")) = true
      ∧ fsC67.read (pstr "/w") (pyJoin (pstr "/app/projects/demo") (pstr "a.txt"))
          = some (pstr "hi"))
    ∧ (edit_file_regex fsC67 (pstr "/app") (pstr "/w") (pstr "demo") (pstr "a.txt")
          none (pstr "X") false = (Resp.httpError 400 invalidRegexMsg, fsC67)
      ∧ (edit_file_regex fsC67 (pstr "/app") (pstr "/w") (pstr "demo") (pstr "a.txt")
          none (pstr "X") false).2.read (pstr "/w")
            (pyJoin (pstr "/app/projects/demo") (pstr "a.txt")) = some (pstr "hi")) :=
  ⟨⟨by decide, by decide, by decide, by decide⟩,
    c7_invalid_pattern_client_error fsC67 (pstr "/app") (pstr "/w") (pstr "demo") (pstr "a.txt")
      (pstr "X") false (pstr "/app/projects/demo") (pstr "hi")
      (by decide) (by decide) (by decide) (by decide)⟩

/-! ## C10: `create_project` with a pre-existing destination -/

theorem FS.read_mkdirs (fs : FS) (cwd q p : PyStr) :
    (fs.mkdirs cwd q).read cwd p = fs.read cwd p := rfl

theorem FS.read_write (fs : FS) (cwd p q v : PyStr) :
    (fs.write cwd q v).read cwd p =
      if pyAbspath cwd p = pyAbspath cwd q then some v else fs.read cwd p := by
  unfold FS.write FS.read
  by_cases hc : (fs.files.map Prod.fst).contains (pyAbspath cwd q)
  · rw [if_pos hc]
    simp only [List.find?_map]
    have hfe : ((fun kv : PyStr × PyStr => decide (kv.1 = pyAbspath cwd p)) ∘
        (fun kv => if kv.1 = pyAbspath cwd q then (kv.1, v) else kv))
        = fun kv : PyStr × PyStr => decide (kv.1 = pyAbspath cwd p) := by
      funext kv
      by_cases hk : kv.1 = pyAbspath cwd q <;> simp [hk]
    rw [hfe]
    by_cases hpq : pyAbspath cwd p = pyAbspath cwd q
    · rw [if_pos hpq]
      have hsome : (fs.files.find? (fun kv => decide (kv.1 = pyAbspath cwd p))).isSome := by
        rw [List.find?_isSome]
        obtain ⟨e, he, hkey⟩ : ∃ e ∈ fs.files, e.1 = pyAbspath cwd q := by
          simpa using hc
        exact ⟨e, he, by simp [hkey, hpq]⟩
      obtain ⟨r, hr⟩ := Option.isSome_iff_exists.mp hsome
      have hrP := List.find?_some hr
      simp only [decide_eq_true_eq] at hrP
      rw [hr]
      simp [hrP, hpq]
    · rw [if_neg hpq]
      cases hfind : fs.files.find? (fun kv => decide (kv.1 = pyAbspath cwd p)) with
      | none => simp
      | some r =>
        have hrP := List.find?_some hfind
        simp only [decide_eq_true_eq] at hrP
        have : r.1 ≠ pyAbspath cwd q := by rw [hrP]; exact hpq
        simp [this]
  · rw [if_neg hc]
    simp only [List.find?_append]
    by_cases hpq : pyAbspath cwd p = pyAbspath cwd q
    · rw [if_pos hpq]
      have hnone : fs.files.find? (fun kv => decide (kv.1 = pyAbspath cwd p)) = none := by
        rw [List.find?_eq_none]
        intro e he hP
        simp only [decide_eq_true_eq] at hP
        have hmm : e.1 ∈ fs.files.map Prod.fst := List.mem_map_of_mem Prod.fst he
        rw [hP, hpq] at hmm
        exact hc (by simpa using hmm)
      rw [hnone]
      simp [hpq]
    · rw [if_neg hpq]
      have hpred : (fun kv : PyStr × PyStr => decide (kv.1 = pyAbspath cwd p))
          (pyAbspath cwd q, v) = false := by
        simp
        exact fun h => hpq h.symm
      simp [hpred]

theorem applyArchive_read_untouched (cwd dest : PyStr) :
    ∀ (entries : List (PyStr × PyStr)) (fs : FS) (p : PyStr),
      (∀ e ∈ entries, pyAbspath cwd (pyJoin dest e.1) ≠ pyAbspath cwd p) →
      (applyArchive fs cwd dest entries).read cwd p = fs.read cwd p := by
  intro entries
  induction entries with
  | nil => intro fs p _; rfl
  | cons e rest ih =>
    intro fs p h
    show (applyArchive (fs.write cwd (pyJoin dest e.1) e.2) cwd dest rest).read cwd p
        = fs.read cwd p
    rw [ih _ p (fun x hx => h x (by simp [hx])), FS.read_write,
      if_neg (fun hq => h e (by simp) hq.symm)]

theorem applyArchive_read (cwd dest : PyStr) :
    ∀ (entries : List (PyStr × PyStr)) (fs : FS) (rel content : PyStr),
      (entries.map (fun e => pyAbspath cwd (pyJoin dest e.1))).Nodup →
      (rel, content) ∈ entries →
      (applyArchive fs cwd dest entries).read cwd (pyJoin dest rel) = some content := by
  intro entries
  induction entries with
  | nil => intro fs rel content _ hmem; simp at hmem
  | cons e rest ih =>
    intro fs rel content hnd hmem
    rw [List.map_cons, List.nodup_cons] at hnd
    show (applyArchive (fs.write cwd (pyJoin dest e.1) e.2) cwd dest rest).read cwd
        (pyJoin dest rel) = some content
    rcases List.mem_cons.mp hmem with he | hrest
    · have hrel : rel = e.1 := by rw [← he]
      have hkey : ∀ x ∈ rest, pyAbspath cwd (pyJoin dest x.1) ≠ pyAbspath cwd (pyJoin dest rel) := by
        intro x hx hq
        apply hnd.1
        rw [hrel] at hq
        exact hq ▸ List.mem_map_of_mem (fun y => pyAbspath cwd (pyJoin dest y.1)) hx
      rw [applyArchive_read_untouched cwd dest rest _ _ hkey, FS.read_write,
        if_pos (by rw [hrel]), ← he]
    · exact ih _ rel content hnd.2 hrest

/-- C10: `create_project` never fails because the project already exists:
even when the destination `<script>/projects/<name>` is an existing
directory that already holds a file colliding with a template entry, the
bundled archive is still extracted into it and the colliding file ends up
with the template's contents (existing files are overwritten, and the
model has no failure path tied to a pre-existing destination). -/
theorem c10_create_project_overwrites (fs : FS) (script cwd name rel content oldC : PyStr)
    (entries : List (PyStr × PyStr))
    (hex : fs.existsP cwd (pyJoin (pyJoin script projectsDirName) name) = true)
    (_hold : fs.read cwd (pyJoin (pyJoin (pyJoin script projectsDirName) name) rel) = some oldC)
    (hnd : (entries.map (fun e =>
        pyAbspath cwd (pyJoin (pyJoin (pyJoin script projectsDirName) name) e.1))).Nodup)
    (hmem : (rel, content) ∈ entries) :
    (create_project fs script cwd name entries).read cwd
      (pyJoin (pyJoin (pyJoin script projectsDirName) name) rel) = some content := by
  unfold create_project
  simp only [hex, if_true]
  exact applyArchive_read cwd _ entries _ rel content hnd hmem

/-- Witness for C10: the managed project `demo` already exists and holds
`index.html` with contents `old`; after `create_project` the template's
`index.html` (contents `new`) has overwritten it. -/
theorem c10_create_project_overwrites_witness :
    (fsC10.existsP (pstr "/") (pyJoin (pyJoin (pstr "/app") projectsDirName) (pstr "demo")) = true
      ∧ fsC10.read (pstr "/")
          (pyJoin (pyJoin (pyJoin (pstr "/app") projectsDirName) (pstr "demo")) (pstr "index.html"))
          = some (pstr "old")
      ∧ ([(pstr "index.html", pstr "new")].map (fun e =>
          pyAbspath (pstr "/")
            (pyJoin (pyJoin (pyJoin (pstr "/app") projectsDirName) (pstr "demo")) e.1))).Nodup
      ∧ ((pstr "index.html", pstr "new")) ∈ [(pstr "index.html", pstr "new")])
    ∧ (create_project fsC10 (pstr "/app") (pstr "/") (pstr "demo")
        [(pstr "index.html", pstr "new")]).read (pstr "/")
        (pyJoin (pyJoin (pyJoin (pstr "/app") projectsDirName) (pstr "demo")) (pstr "index.html"))
        = some (pstr "new") :=
  ⟨⟨by decide, by decide, by decide, by decide⟩,
    c10_create_project_overwrites fsC10 (pstr "/app") (pstr "/") (pstr "demo")
      (pstr "index.html") (pstr "new") (pstr "old") [(pstr "index.html", pstr "new")]
      (by decide) (by decide) (by decide) (by decide)⟩

/-! ## C9: the `list_files` walk -/

theorem validNameB_iff (n : PyStr) : validNameB n = true ↔ '/' ∉ n := by
  simp [validNameB]

theorem wfDirTree_parts (ds : DirForest) (fs : List PyStr)
    (hw : wfDirTree (.node ds fs) = true) :
    fs.Nodup ∧ fs.all validNameB = true ∧ (forestNames ds).Nodup
      ∧ (forestNames ds).all validNameB = true ∧ wfDirForest ds = true := by
  simp only [wfDirTree, Bool.and_eq_true, decide_eq_true_eq] at hw
  exact ⟨hw.1.1.1.1, hw.1.1.1.2, hw.1.1.2, hw.1.2, hw.2⟩

theorem wfDirForest_parts (n : PyStr) (c : DirTree) (rest : DirForest)
    (hw : wfDirForest (.cons n c rest) = true) :
    wfDirTree c = true ∧ wfDirForest rest = true := by
  simp only [wfDirForest, Bool.and_eq_true] at hw
  exact hw

/-- Two relative file paths built from separator-free components are equal
only when directory chain and file name agree. -/
theorem relOfFile_inj (l₁ l₂ : List PyStr) (f₁ f₂ : PyStr)
    (h1 : ∀ x ∈ l₁, validNameB x = true) (h1f : validNameB f₁ = true)
    (h2 : ∀ x ∈ l₂, validNameB x = true) (h2f : validNameB f₂ = true)
    (heq : relOfFile l₁ f₁ = relOfFile l₂ f₂) : l₁ = l₂ ∧ f₁ = f₂ := by
  have hs1 : ∀ x ∈ l₁ ++ [f₁], '/' ∉ x := by
    intro x hx
    rcases List.mem_append.mp hx with h | h
    · exact (validNameB_iff x).mp (h1 x h)
    · rw [List.mem_singleton.mp h]
      exact (validNameB_iff f₁).mp h1f
  have hs2 : ∀ x ∈ l₂ ++ [f₂], '/' ∉ x := by
    intro x hx
    rcases List.mem_append.mp hx with h | h
    · exact (validNameB_iff x).mp (h2 x h)
    · rw [List.mem_singleton.mp h]
      exact (validNameB_iff f₂).mp h2f
  have g1 := List.splitOn_intercalate _ '/' hs1 (by simp)
  have g2 := List.splitOn_intercalate _ '/' hs2 (by simp)
  have hsep : pstr "/" = ['/'] := rfl
  rw [relOfFile, relOfFile, hsep] at heq
  have key : l₁ ++ [f₁] = l₂ ++ [f₂] := by rw [← g1, ← g2, heq]
  obtain ⟨ha, hb⟩ := List.append_inj' key (by simp)
  exact ⟨ha, by simpa using hb⟩

theorem keepEntry_nil_chain (rel : List PyStr) (f : PyStr) :
    keepEntry rel ([], f) = !(uiPref.isPrefixOf (relOfDir rel)) := by
  cases h : uiPref.isPrefixOf (relOfDir rel) <;> simp [keepEntry, h]

theorem keepEntry_cons_chain (rel : List PyStr) (n : PyStr) (e : List PyStr × PyStr)
    (hn : n ≠ nmStr) :
    keepEntry rel ((n :: e.1, e.2) : List PyStr × PyStr) = keepEntry (rel ++ [n]) e := by
  have hb : (nmStr == n) = false := by
    simp [Ne.symm hn]
  simp only [keepEntry, List.contains_cons, hb]
  rw [show rel ++ n :: e.1 = (rel ++ [n]) ++ e.1 from List.append_cons rel n e.1]
  simp

theorem keepEntry_nm_chain (rel : List PyStr) (e : List PyStr × PyStr) :
    keepEntry rel ((nmStr :: e.1, e.2) : List PyStr × PyStr) = false := by
  simp [keepEntry, List.contains_cons]

/-- Every entry of a forest's entry list carries a chain headed by one of
the forest's directory names. -/
theorem allEntriesF_shape : ∀ (fo : DirForest) (e : List PyStr × PyStr), e ∈ allEntriesF fo →
    ∃ n rest2, e.1 = n :: rest2 ∧ n ∈ forestNames fo
  | .nil, e, he => by simp [allEntriesF] at he
  | .cons n c rest, e, he => by
    rw [allEntriesF] at he
    rcases List.mem_append.mp he with h | h
    · obtain ⟨e', _, rfl⟩ := List.mem_map.mp h
      exact ⟨n, e'.1, rfl, by simp [forestNames]⟩
    · obtain ⟨n', rest2, h1, h2⟩ := allEntriesF_shape rest e h
      exact ⟨n', rest2, h1, by simp [forestNames, h2]⟩

mutual
/-- The walk of `list_files` below a directory `rel` (components relative to
the project root) emits exactly the tree's files that survive the exclusion
predicate, as paths relative to the project root, in walk order. -/
theorem walkDirTree_entries : ∀ (t : DirTree) (rel : List PyStr), wfDirTree t = true →
    walkDirTree t rel
      = ((allEntriesT t).filter (keepEntry rel)).map (fun e => relOfFile (rel ++ e.1) e.2)
  | .node ds fs, rel, hw => by
    obtain ⟨_, _, hndn, _, hwf⟩ := wfDirTree_parts ds fs hw
    rw [walkDirTree, allEntriesT, List.filter_append, List.map_append]
    congr 1
    · rw [List.filter_map, List.map_map]
      have hcomp : ((fun e : List PyStr × PyStr => relOfFile (rel ++ e.1) e.2) ∘
          (fun f : PyStr => (([] : List PyStr), f))) = fun f : PyStr => relOfFile rel f := by
        funext f
        simp [relOfFile]
      have hpred : ((keepEntry rel) ∘ (fun f : PyStr => (([] : List PyStr), f)))
          = fun _ : PyStr => !(uiPref.isPrefixOf (relOfDir rel)) := by
        funext f
        exact keepEntry_nil_chain rel f
      rw [hcomp, hpred]
      cases h : uiPref.isPrefixOf (relOfDir rel) <;> simp [h]
    · exact walkDirForest_entries ds false rel hwf hndn (fun h => absurd h (by simp))
/-- Forest version of `walkDirTree_entries`; `removed = true` is only
reached after the single `dirs.remove('node_modules')` has fired, so under
distinct sibling names no `node_modules` sibling remains. -/
theorem walkDirForest_entries : ∀ (fo : DirForest) (removed : Bool) (rel : List PyStr),
    wfDirForest fo = true → (forestNames fo).Nodup →
    (removed = true → nmStr ∉ forestNames fo) →
    walkDirForest fo removed rel
      = ((allEntriesF fo).filter (keepEntry rel)).map (fun e => relOfFile (rel ++ e.1) e.2)
  | .nil, removed, rel, _, _, _ => by
    rw [walkDirForest, allEntriesF]
    rfl
  | .cons n c rest, removed, rel, hw, hnd, hrm => by
    obtain ⟨hwc, hwrest⟩ := wfDirForest_parts n c rest hw
    simp only [forestNames] at hnd hrm
    rw [List.nodup_cons] at hnd
    rw [walkDirForest, allEntriesF, List.filter_append, List.map_append]
    by_cases hcase : n = nmStr ∧ removed = false
    · rw [if_pos hcase]
      obtain ⟨hn_eq, _⟩ := hcase
      subst hn_eq
      rw [walkDirForest_entries rest true rel hwrest hnd.2 (fun _ => hnd.1)]
      have hz : ((allEntriesT c).map
          (fun e => ((nmStr :: e.1, e.2) : List PyStr × PyStr))).filter (keepEntry rel) = [] := by
        rw [List.filter_eq_nil_iff]
        intro a ha
        obtain ⟨e', _, rfl⟩ := List.mem_map.mp ha
        rw [keepEntry_nm_chain]
        simp
      rw [hz]
      simp
    · rw [if_neg hcase]
      have hn_ne : n ≠ nmStr := by
        rcases Bool.eq_false_or_eq_true removed with hr | hr
        · intro h
          exact (hrm hr) (by rw [h]; exact List.mem_cons_self _ _)
        · intro h
          exact hcase ⟨h, hr⟩
      rw [walkDirTree_entries c (rel ++ [n]) hwc,
        walkDirForest_entries rest removed rel hwrest hnd.2
          (fun hr hmem => (hrm hr) (List.mem_cons_of_mem _ hmem))]
      congr 1
      rw [List.filter_map, List.map_map]
      have hpred : ((keepEntry rel) ∘
          (fun e : List PyStr × PyStr => ((n :: e.1, e.2) : List PyStr × PyStr)))
          = keepEntry (rel ++ [n]) := by
        funext e
        exact keepEntry_cons_chain rel n e hn_ne
      have hcomp : ((fun e : List PyStr × PyStr => relOfFile (rel ++ e.1) e.2) ∘
          (fun e : List PyStr × PyStr => ((n :: e.1, e.2) : List PyStr × PyStr)))
          = fun e : List PyStr × PyStr => relOfFile ((rel ++ [n]) ++ e.1) e.2 := by
        funext e
        simp only [Function.comp_apply]
        rw [List.append_cons]
      rw [hpred, hcomp]
end

mutual
/-- Under well-formedness every entry's chain components and file name are
separator-free. -/
theorem allEntriesT_valid : ∀ (t : DirTree), wfDirTree t = true →
    ∀ e ∈ allEntriesT t, (∀ x ∈ e.1, validNameB x = true) ∧ validNameB e.2 = true
  | .node ds fs, hw, e, he => by
    obtain ⟨_, hfv, _, hnv, hwf⟩ := wfDirTree_parts ds fs hw
    rw [allEntriesT] at he
    rcases List.mem_append.mp he with h | h
    · obtain ⟨f, hf, rfl⟩ := List.mem_map.mp h
      exact ⟨by simp, List.all_eq_true.mp hfv f hf⟩
    · exact allEntriesF_valid ds hwf hnv e h
theorem allEntriesF_valid : ∀ (fo : DirForest), wfDirForest fo = true →
    (forestNames fo).all validNameB = true →
    ∀ e ∈ allEntriesF fo, (∀ x ∈ e.1, validNameB x = true) ∧ validNameB e.2 = true
  | .nil, _, _, e, he => by
    rw [allEntriesF] at he
    simp at he
  | .cons n c rest, hw, hnv, e, he => by
    obtain ⟨hwc, hwrest⟩ := wfDirForest_parts n c rest hw
    simp only [forestNames, List.all_cons, Bool.and_eq_true] at hnv
    rw [allEntriesF] at he
    rcases List.mem_append.mp he with h | h
    · obtain ⟨e', he', rfl⟩ := List.mem_map.mp h
      obtain ⟨hv1, hv2⟩ := allEntriesT_valid c hwc e' he'
      refine ⟨?_, hv2⟩
      intro x hx
      rcases List.mem_cons.mp hx with rfl | hx
      · exact hnv.1
      · exact hv1 x hx
    · exact allEntriesF_valid rest hwrest hnv.2 e h
end

mutual
/-- Under well-formedness the entry list has no duplicate
(chain, file name) pair. -/
theorem allEntriesT_nodup : ∀ (t : DirTree), wfDirTree t = true → (allEntriesT t).Nodup
  | .node ds fs, hw => by
    obtain ⟨hfnd, _, hndn, _, hwf⟩ := wfDirTree_parts ds fs hw
    rw [allEntriesT, List.nodup_append]
    refine ⟨List.Nodup.map (fun a b hab => by simpa using hab) hfnd,
      allEntriesF_nodup ds hwf hndn, ?_⟩
    intro a ha hb
    obtain ⟨f, _, rfl⟩ := List.mem_map.mp ha
    obtain ⟨n, r2, hshape, _⟩ := allEntriesF_shape ds _ hb
    simp at hshape
theorem allEntriesF_nodup : ∀ (fo : DirForest), wfDirForest fo = true →
    (forestNames fo).Nodup → (allEntriesF fo).Nodup
  | .nil, _, _ => by
    rw [allEntriesF]
    exact List.nodup_nil
  | .cons n c rest, hw, hnd => by
    obtain ⟨hwc, hwrest⟩ := wfDirForest_parts n c rest hw
    simp only [forestNames] at hnd
    rw [List.nodup_cons] at hnd
    rw [allEntriesF, List.nodup_append]
    refine ⟨?_, allEntriesF_nodup rest hwrest hnd.2, ?_⟩
    · refine List.Nodup.map ?_ (allEntriesT_nodup c hwc)
      intro a b hab
      have hab2 : ((n :: a.1, a.2) : List PyStr × PyStr) = (n :: b.1, b.2) := hab
      have hpair := Prod.mk.inj hab2
      have h1 : a.1 = b.1 := by
        have hcons := hpair.1
        injection hcons
      exact Prod.ext h1 hpair.2
    · intro a ha hb
      obtain ⟨e', _, rfl⟩ := List.mem_map.mp ha
      obtain ⟨n', r2, hshape, hmem⟩ := allEntriesF_shape rest _ hb
      have h1 : n = n' := by injection hshape
      exact hnd.1 (h1 ▸ hmem)
end

/-- The manifest of a root listing contains each surviving file exactly
once. -/
theorem walkDirTree_nodup (t : DirTree) (rel : List PyStr)
    (hw : wfDirTree t = true) (hrel : rel.all validNameB = true) :
    (walkDirTree t rel).Nodup := by
  rw [walkDirTree_entries t rel hw]
  refine List.Nodup.map_on ?_ ((allEntriesT_nodup t hw).filter _)
  intro x hx y hy hxy
  have hxv := allEntriesT_valid t hw x (List.mem_of_mem_filter hx)
  have hyv := allEntriesT_valid t hw y (List.mem_of_mem_filter hy)
  have hrelv : ∀ z ∈ rel, validNameB z = true := fun z hz => List.all_eq_true.mp hrel z hz
  obtain ⟨h1, h2⟩ := relOfFile_inj (rel ++ x.1) (rel ++ y.1) x.2 y.2
    (fun z hz => by
      rcases List.mem_append.mp hz with h | h
      · exact hrelv z h
      · exact hxv.1 z h)
    hxv.2
    (fun z hz => by
      rcases List.mem_append.mp hz with h | h
      · exact hrelv z h
      · exact hyv.1 z h)
    hyv.2
    hxy
  exact Prod.ext (List.append_cancel_left h1) h2

/-- Counterexample to C9 as stated: the walk skips *directories* whose
relative path starts with `src/components/ui`, not files.  In a tree with
the file `ui-helpers.ts` directly inside `src/components`, the manifest
contains `src/components/ui-helpers.ts`, whose path relative to the project
root starts with the string `src/components/ui` — contradicting "no file
whose path relative to the project root starts with src/components/ui". -/
theorem c9_listing_claim_counterexample :
    walkDirTree cexTreeC9 [] = [pstr "src/components/ui-helpers.ts"]
    ∧ uiPref.isPrefixOf (pstr "src/components/ui-helpers.ts") = true := by
  decide

/-- C9 as amended: for a well-formed tree (distinct, separator-free sibling
names) the manifest of the walk rooted at chain `rel` below the project
root is exactly the tree's files that survive the code's two exclusions —
no `node_modules` component in the chain below the walk root, and the
containing *directory*'s path relative to the project root does not start
with `src/components/ui` — each as its path relative to the project root
(not the walk root), and each exactly once. -/
theorem c9_listing_exclusions (t : DirTree) (rel : List PyStr)
    (hw : wfDirTree t = true) (hrel : rel.all validNameB = true) :
    walkDirTree t rel
      = ((allEntriesT t).filter (keepEntry rel)).map (fun e => relOfFile (rel ++ e.1) e.2)
    ∧ (walkDirTree t rel).Nodup :=
  ⟨walkDirTree_entries t rel hw, walkDirTree_nodup t rel hw hrel⟩

/-- Witness for the amended C9 on the claim's example tree: it is
well-formed, the characterisation applies to its root listing, and the
manifest is exactly `[index.html]` — containing neither
`node_modules/pkg/index.js` nor `src/components/ui/button.tsx`. -/
theorem c9_listing_exclusions_witness :
    (wfDirTree exTreeC9 = true ∧ ([] : List PyStr).all validNameB = true)
    ∧ (walkDirTree exTreeC9 []
        = ((allEntriesT exTreeC9).filter (keepEntry [])).map
            (fun e => relOfFile ([] ++ e.1) e.2)
      ∧ (walkDirTree exTreeC9 []).Nodup)
    ∧ walkDirTree exTreeC9 [] = [pstr "index.html"] :=
  ⟨⟨by decide, by decide⟩,
    c9_listing_exclusions exTreeC9 [] (by decide) (by decide),
    by decide⟩
